import Mathlib

/-!
Verification of the tensor-domain IR fragment in
`torch/csrc/jit/fuser/common/tensor.h` (namespace `torch::jit::fuser`):
IterDomain, TensorDomain, Tensor, TensorView and the split / merge /
reorder / compute-at transformations.

The embedding follows the header. Bodies that the header only declares
(they live in `tensor.cpp` / `ir.h`, which are not part of the sources)
are modelled from the specification and marked `Modelled from the spec:`
in their doc comments. Nullable C++ pointers are modelled with `Option`
and failing `assert` / thrown errors with `Option` / `Except` results.
-/

/-- Parallelization strategies attached to an IterDomain. The enum itself
is declared in `ir.h` (not among the sources); the exact constructor list
does not matter for the claims, only that it is an equality-comparable tag
with a distinguished `Serial` default. -/
inductive ParallelType where
  | BIDz
  | BIDy
  | BIDx
  | TIDz
  | TIDy
  | TIDx
  | Vectorize
  | Unroll
  | Serial
  deriving DecidableEq, Repr

/-- Element data types of a Tensor (`DataType` in `ir.h`, not among the
sources); only equality comparison is needed. -/
inductive DataType where
  | FloatTy
  | IntTy
  deriving DecidableEq, Repr

/-- Modelled from the spec: the `Int` size-node class lives in `ir.h`,
which is not among the sources. Per the spec a size is "a symbolic
non-negative integer value, itself a graph node, not a concrete number".
`lit v` is a node constructed with a concrete value (`new Int(v)`),
`sym i` a fresh unresolved symbolic node (`new Int()`, distinguished by
its allocation index), and `ceilDiv` / `mul` the arithmetic nodes the
split / merge transformations build over sizes. -/
inductive IntNode where
  | lit (v : Nat)
  | sym (id : Nat)
  | ceilDiv (a b : IntNode)
  | mul (a b : IntNode)
  deriving DecidableEq, Repr

/-- Concrete value of a size node, when it is fully resolved. -/
def IntNode.value : IntNode → Option Nat
  | .lit v => some v
  | .sym _ => none
  | .ceilDiv a b =>
    match a.value, b.value with
    | some x, some y => if y = 0 then none else some ((x + y - 1) / y)
    | _, _ => none
  | .mul a b =>
    match a.value, b.value with
    | some x, some y => some (x * y)
    | _, _ => none

/-- Modelled from the spec: `Int::same_as` is declared in `ir.h` (not
among the sources). Per the spec, "size equality delegates to the size
node's own equality, not pointer identity" and equal-by-value sizes
compare equal; nodes without a resolved value fall back to node
identity, modelled structurally. -/
def IntNode.same_as (a b : IntNode) : Bool :=
  match a.value, b.value with
  | some v, some w => v == w
  | _, _ => a == b

/-- `IterDomain` (tensor.h): an annotated extent — size node,
parallelization tag, reduction flag. Immutable after construction. -/
structure IterDomain where
  size : IntNode
  parallel_method : ParallelType
  is_reduction_domain : Bool
  deriving DecidableEq, Repr

/-- `IterDomain::isReduction` accessor. -/
def IterDomain.isReduction (a : IterDomain) : Bool :=
  a.is_reduction_domain

/-- `IterDomain::same_as` (tensor.h): reduction flags equal, parallel
methods equal, and the size nodes `same_as` each other. -/
def IterDomain.same_as (a b : IterDomain) : Bool :=
  a.isReduction == b.isReduction
    && a.parallel_method == b.parallel_method
    && a.size.same_as b.size

/-- `TensorDomain` (tensor.h): an ordered sequence of IterDomains. -/
structure TensorDomain where
  domain : List IterDomain
  deriving DecidableEq, Repr

/-- `TensorDomain::size`: the rank. -/
def TensorDomain.size (d : TensorDomain) : Nat :=
  d.domain.length

/-- `TensorDomain::axis(int i)` (tensor.h): negative `i` is normalized by
adding the rank once, then `assert(i >= 0 && i < size())`; a failing
assert is modelled as `none`. -/
def TensorDomain.axis (d : TensorDomain) (i : Int) : Option IterDomain :=
  let j : Int := if i < 0 then i + d.size else i
  if h : 0 ≤ j ∧ j < (d.size : Int) then
    some (d.domain.get ⟨j.toNat, by
      have hl : j < (d.domain.length : Int) := h.2
      omega⟩)
  else
    none

/-- `TensorDomain::same_as` (tensor.h): equal rank, then pairwise
`same_as` of the axes in order. -/
def TensorDomain.same_as (a b : TensorDomain) : Bool :=
  if a.size ≠ b.size then
    false
  else
    (List.range a.size).all fun i =>
      match a.axis i, b.axis i with
      | some x, some y => x.same_as y
      | _, _ => false

/-- Concrete 3-axis domain used to instantiate bounds facts. -/
def exampleDomain3 : TensorDomain :=
  ⟨[⟨IntNode.sym 0, ParallelType.Serial, false⟩,
    ⟨IntNode.sym 1, ParallelType.Serial, false⟩,
    ⟨IntNode.sym 2, ParallelType.Serial, false⟩]⟩

/-- Two structurally different size nodes with the same concrete value. -/
def iterA : IterDomain := ⟨IntNode.lit 5, ParallelType.Serial, false⟩

def iterB : IterDomain :=
  ⟨IntNode.ceilDiv (IntNode.lit 10) (IntNode.lit 2), ParallelType.Serial, false⟩

/-- `Tensor` (tensor.h): element data type, optional contiguity
descriptor, and a nullable pointer to the native TensorDomain. The
`TensorContiguity` payload is defined in `tensor_meta.h` (not among the
sources) and irrelevant to the claims, so its carrier is `Unit`. -/
structure Tensor where
  dtype : DataType
  contiguity : Option Unit
  domain : Option TensorDomain
  deriving DecidableEq, Repr

/-- `Tensor::MakeDummyTensor(ndims)` (tensor.h): `ndims` fresh serial,
non-reduction IterDomains of unresolved symbolic size wrapped in a
TensorDomain, returned as a Float tensor without contiguity info. -/
def Tensor.MakeDummyTensor (ndims : Nat) : Tensor :=
  ⟨DataType.FloatTy, none,
    some ⟨(List.range ndims).map fun i =>
      ⟨IntNode.sym i, ParallelType.Serial, false⟩⟩⟩

/-- Modelled from the spec: `Tensor::same_as` is only a TODO in tensor.h
and `Val::same_as` lives in `ir.h`, not among the sources; per the spec,
TensorView equality requires the bound Tensors to be "structurally
equal", so Tensor equality is modelled as structural equality of data
type, contiguity descriptor and (optional) native domain. -/
def Tensor.same_as (a b : Tensor) : Bool :=
  a.dtype == b.dtype && a.contiguity == b.contiguity &&
    match a.domain, b.domain with
    | some da, some db => da.same_as db
    | none, none => true
    | _, _ => false

/-- `TensorView` (tensor.h): a bound Tensor, a current TensorDomain (a
nullable pointer copied from the constructor argument), an optional
compute-at target view and the compute-at axis. An inductive is used
because the compute-at target is itself a TensorView. -/
inductive TensorView : Type where
  | mk (tensor : Tensor) (domain : Option TensorDomain)
      (compute_at_view : Option TensorView) (compute_at_axis : Int)

/-- `TensorView::tensor` accessor. -/
def TensorView.tensor : TensorView → Tensor
  | .mk t _ _ _ => t

/-- `TensorView::domain` accessor. -/
def TensorView.domain : TensorView → Option TensorDomain
  | .mk _ d _ _ => d

/-- `TensorView::getComputeAtView` accessor. -/
def TensorView.getComputeAtView : TensorView → Option TensorView
  | .mk _ _ c _ => c

/-- `TensorView::getComputeAtAxis` accessor. -/
def TensorView.getComputeAtAxis : TensorView → Int
  | .mk _ _ _ a => a

/-- Two-argument constructor `TensorView(_tensor, _domain)` (tensor.h):
the compute-at state starts unset (`nullptr` target, axis `-1`). -/
def TensorView.ofTensorAndDomain (t : Tensor) (d : Option TensorDomain) :
    TensorView :=
  .mk t d none (-1)

/-- One-argument constructor `TensorView(_tensor)` (tensor.h): the domain
is the wrapped Tensor's native domain; compute-at state starts unset. -/
def TensorView.ofTensor (t : Tensor) : TensorView :=
  .mk t t.domain none (-1)

/-- `TensorView::same_as` (tensor.h): the bound Tensors are `same_as` and
the current domains are `same_as`. C++ `&&` short-circuits, so the domain
pointers are dereferenced only when the tensors compare equal; a null
dereference is modelled as `none`. -/
def TensorView.same_as (a b : TensorView) : Option Bool :=
  if a.tensor.same_as b.tensor then
    match a.domain, b.domain with
    | some da, some db => some (da.same_as db)
    | _, _ => none
  else
    some false

/-- Modelled from the spec: `ComputeAt_impl` is declared in tensor.h but
its body lives in tensor.cpp, which is not among the sources. Per the
spec it must verify that the axis is a valid index into the target's
domain and that all iteration domains shared between the two views below
that axis are structurally compatible (`same_as`), signalling failure as
a rejected transformation, modelled as `Except.error`. -/
def ComputeAt_impl (consumer producer : TensorView) (axis : Int) :
    Except String Unit :=
  match consumer.domain, producer.domain with
  | some cd, some pd =>
    if 0 ≤ axis ∧ axis ≤ (pd.size : Int) then
      if (List.range (min axis.toNat cd.size)).all (fun i =>
          match cd.axis i, pd.axis i with
          | some x, some y => x.same_as y
          | _, _ => false) then
        Except.ok ()
      else
        Except.error "computeAt rejected: incompatible shared iteration domains"
    else
      Except.error "computeAt rejected: axis out of range of target domain"
  | _, _ => Except.error "computeAt rejected: view without a domain"

/-- `TensorView::computeAt(tv, axis)` (tensor.h): runs `ComputeAt_impl`,
then records the target view and the axis. A failure thrown by
`ComputeAt_impl` propagates before either field is assigned, so on a
rejected call the view keeps its previous state. -/
def TensorView.computeAt (v : TensorView) (tv : TensorView) (axis : Int) :
    Except String TensorView :=
  match ComputeAt_impl v tv axis with
  | Except.error e => Except.error e
  | Except.ok _ => Except.ok (TensorView.mk v.tensor v.domain (some tv) axis)

/-- Post-state of `v.computeAt tv axis` under C++ exception semantics:
the updated view on success, the unchanged view on a rejected call. -/
def TensorView.computeAtPost (v : TensorView) (tv : TensorView)
    (axis : Int) : TensorView :=
  match v.computeAt tv axis with
  | Except.ok v2 => v2
  | Except.error _ => v

/-- Concrete rank-2 target view, its domain, and a fresh rank-3 view with
unset compute-at state, used to instantiate the compute-at claims. -/
def targetView : TensorView := TensorView.ofTensor (Tensor.MakeDummyTensor 2)

def targetDom : TensorDomain :=
  ⟨[⟨IntNode.sym 0, ParallelType.Serial, false⟩,
    ⟨IntNode.sym 1, ParallelType.Serial, false⟩]⟩

def schedView : TensorView := TensorView.ofTensor (Tensor.MakeDummyTensor 3)

/-- Two structurally equal but separately described views. -/
def viewA : TensorView :=
  TensorView.ofTensor (Tensor.MakeDummyTensor 2)

def viewB : TensorView :=
  TensorView.ofTensorAndDomain (Tensor.MakeDummyTensor 2) (some targetDom)

/-- Modelled from the spec: the body of the free function
`split(TensorView*, int axis, int factor)` lives in tensor.cpp, which is
not among the sources. Per spec section 4.5 it replaces axis `a` of the
input domain by an outer axis of size `ceil(extent/factor)` and an inner
axis of size `factor` (both inheriting the original axis's
parallelization and reduction annotations), producing a domain of rank
`rank + 1`; `axis` must index an existing axis and `factor` must be a
positive integer, else the transformation is rejected (`none`). -/
def split (d : TensorDomain) (a : Nat) (factor : Nat) : Option TensorDomain :=
  match d.domain[a]? with
  | some old =>
    if 0 < factor then
      some ⟨d.domain.take a
        ++ [⟨IntNode.ceilDiv old.size (IntNode.lit factor),
              old.parallel_method, old.is_reduction_domain⟩,
            ⟨IntNode.lit factor, old.parallel_method,
              old.is_reduction_domain⟩]
        ++ d.domain.drop (a + 1)⟩
    else none
  | none => none

/-- Modelled from the spec: the body of the free function
`merge(TensorView*, int axis)` lives in tensor.cpp, which is not among
the sources. Per spec section 4.6 and the comment on `Merge` in
tensor.h, axes `a` and `a+1` are merged into a single axis whose size is
the product of the two, producing a domain of rank `rank - 1`; the two
axes must agree on the reduction flag and the parallelization strategy,
and a violation is a legality error (`none`). -/
def merge (d : TensorDomain) (a : Nat) : Option TensorDomain :=
  match d.domain[a]?, d.domain[a + 1]? with
  | some x, some y =>
    if x.is_reduction_domain = y.is_reduction_domain
        ∧ x.parallel_method = y.parallel_method then
      some ⟨d.domain.take a
        ++ [⟨IntNode.mul x.size y.size, x.parallel_method,
              x.is_reduction_domain⟩]
        ++ d.domain.drop (a + 2)⟩
    else none
  | _, _ => none

/-- Fallback axis for the (never taken) out-of-range branch of `getD`
inside `reorder`. -/
def IterDomain.dflt : IterDomain :=
  ⟨IntNode.lit 0, ParallelType.Serial, false⟩

/-- Modelled from the spec: the body of the free function
`reorder(TensorView*, unordered_map<int,int>)` lives in tensor.cpp,
which is not among the sources. Per spec section 4.7 it takes a map with
`pos2axis[new_position] = old_position`, required to be a bijection on
`[0, rank-1]`, and produces a domain of the same rank with
`out[i] = in[pos2axis[i]]`; a non-bijective map is a legality error
(`none`). -/
def reorder (d : TensorDomain) (pos2axis : List Nat) : Option TensorDomain :=
  if pos2axis.length = d.domain.length
      ∧ (List.range d.domain.length).all (fun i => pos2axis.contains i) then
    some ⟨pos2axis.map (fun i => d.domain.getD i IterDomain.dflt)⟩
  else none

/-- `Reorder` expression record (tensor.h): output domain, input domain,
and the new-position-to-old-axis permutation. -/
structure Reorder where
  out : TensorDomain
  in' : TensorDomain
  pos2axis : List Int

/-- `Reorder::same_as` (tensor.h): compares only the `out` and `in`
domains — the source comments "Implicitly in and out matching means
pos2axis matches" — and never reads the permutation vector. In the C++
header the parameter is declared `const Merge*` (an apparent slip); only
the `out()` / `in()` accessors of the argument are read, which is what
is modelled here on Reorder nodes. -/
def Reorder.same_as (a b : Reorder) : Bool :=
  a.out.same_as b.out && a.in'.same_as b.in'

/-- Rank-2 domain with one reduction and one serial iteration axis. -/
def mixedDomain : TensorDomain :=
  ⟨[⟨IntNode.lit 8, ParallelType.Serial, true⟩,
    ⟨IntNode.lit 4, ParallelType.Serial, false⟩]⟩

/-- Two Reorder nodes over the same domains with different permutation
vectors. -/
def reorderNodeA : Reorder := ⟨targetDom, targetDom, [0, 1]⟩

def reorderNodeB : Reorder := ⟨targetDom, targetDom, [1, 0]⟩

/-- Outer axis produced by `split`: size `ceil(extent/factor)`, original
annotations. -/
def splitOuter (old : IterDomain) (f : Nat) : IterDomain :=
  ⟨IntNode.ceilDiv old.size (IntNode.lit f), old.parallel_method,
    old.is_reduction_domain⟩

/-- Inner axis produced by `split`: size `factor`, original
annotations. -/
def splitInner (old : IterDomain) (f : Nat) : IterDomain :=
  ⟨IntNode.lit f, old.parallel_method, old.is_reduction_domain⟩

/-- Concrete extent of an axis of a TensorDomain, when resolved. -/
def extentValueAt (d : TensorDomain) (i : Int) : Option Nat :=
  match d.axis i with
  | some ax => ax.size.value
  | none => none

/-- Rank-1 domain with a single concrete extent-7 serial axis. -/
def exampleDomain7 : TensorDomain :=
  ⟨[⟨IntNode.lit 7, ParallelType.Serial, false⟩]⟩

/-- Rank-1 domain with a single concrete extent-8 serial axis, split
evenly by 4. -/
def exampleDomain8 : TensorDomain :=
  ⟨[⟨IntNode.lit 8, ParallelType.Serial, false⟩]⟩

theorem IntNode.same_as_self (a : IntNode) : a.same_as a = true := by
  unfold IntNode.same_as
  cases h : a.value <;> simp

theorem IterDomain.same_as_rfl (a : IterDomain) : a.same_as a = true := by
  unfold IterDomain.same_as
  simp [IntNode.same_as_self]

theorem IntNode.same_as_comm (a b : IntNode) : a.same_as b = b.same_as a := by
  unfold IntNode.same_as
  cases ha : a.value <;> cases hb : b.value <;>
    simp [BEq.comm]

theorem IterDomain.same_as_symm (a b : IterDomain) :
    a.same_as b = b.same_as a := by
  unfold IterDomain.same_as
  rw [IntNode.same_as_comm, @Bool.beq_comm _ _ _ a.isReduction b.isReduction,
    @Bool.beq_comm _ _ _ a.parallel_method b.parallel_method]

/-- When every axis of `a` is `same_as` itself and the lists are equal,
`same_as` holds; in particular it is reflexive. -/
theorem TensorDomain.same_as_refl (d : TensorDomain) :
    d.same_as d = true := by
  unfold TensorDomain.same_as
  simp only [if_neg (by simp : ¬ d.size ≠ d.size)]
  rw [List.all_eq_true]
  intro i hi
  rw [List.mem_range] at hi
  have hax : d.axis i = some (d.domain.get ⟨i, hi⟩) := by
    unfold TensorDomain.axis
    have h0 : ¬ ((i : Int) < 0) := by omega
    have h1 : (0 : Int) ≤ (i : Int) ∧ (i : Int) < (d.size : Int) := by
      constructor <;> omega
    simp only [h0, if_false, dif_pos h1]
    congr 1
  rw [hax]
  simp [IterDomain.same_as_rfl]

/-- C4: `TensorDomain::axis(i)` accepts `i` in `[-rank, rank-1]`,
normalizes a negative `i` by adding the rank exactly once (so `axis i`
and `axis (i + rank)` agree for negative in-range `i`), and fails with a
bounds error (`none`) for `i ≥ rank` and for `i < -rank`. -/
theorem TensorDomain.axis_bounds (d : TensorDomain) (i : Int) :
    (-(d.size : Int) ≤ i ∧ i < (d.size : Int) →
      (d.axis i).isSome = true ∧ (i < 0 → d.axis i = d.axis (i + d.size)))
    ∧ ((d.size : Int) ≤ i ∨ i < -(d.size : Int) → d.axis i = none) := by
  constructor
  · rintro ⟨hlo, hhi⟩
    constructor
    · unfold TensorDomain.axis
      by_cases hneg : i < 0
      · have h1 : (0 : Int) ≤ i + (d.size : Int) ∧
            i + (d.size : Int) < (d.size : Int) := by constructor <;> omega
        simp only [if_pos hneg]
        rw [dif_pos h1]
        rfl
      · have h1 : (0 : Int) ≤ i ∧ i < (d.size : Int) := by
          constructor <;> omega
        simp only [if_neg hneg]
        rw [dif_pos h1]
        rfl
    · intro hneg
      unfold TensorDomain.axis
      have hpos : ¬ (i + (d.size : Int) < 0) := by omega
      simp only [if_pos hneg, if_neg hpos]
  · intro hout
    unfold TensorDomain.axis
    by_cases hneg : i < 0
    · have h1 : ¬ ((0:Int) ≤ i + (d.size : Int) ∧
          i + (d.size : Int) < (d.size : Int)) := by omega
      simp only [if_pos hneg]
      rw [dif_neg h1]
    · have h1 : ¬ ((0:Int) ≤ i ∧ i < (d.size : Int)) := by omega
      simp only [if_neg hneg]
      rw [dif_neg h1]

theorem TensorDomain.axis_bounds_witness :
    (-(exampleDomain3.size : Int) ≤ -1 ∧ (-1 : Int) < (exampleDomain3.size : Int))
    ∧ (exampleDomain3.axis (-1)).isSome = true
    ∧ exampleDomain3.axis (-1) = exampleDomain3.axis 2
    ∧ exampleDomain3.axis 3 = none := by
  have h := TensorDomain.axis_bounds exampleDomain3 (-1)
  have h3 := TensorDomain.axis_bounds exampleDomain3 3
  have hin : -(exampleDomain3.size : Int) ≤ -1 ∧ (-1 : Int) < (exampleDomain3.size : Int) := by
    decide
  refine ⟨hin, (h.1 hin).1, ?_, h3.2 (by decide)⟩
  have := (h.1 hin).2 (by decide)
  simpa using this

/-- C8: `IterDomain::same_as` is a structural equivalence ignoring object
identity: it is reflexive, symmetric, and two independently constructed
IterDomains with equal reduction flags, equal parallel types, and
concrete equal-valued size nodes are `same_as`. -/
theorem IterDomain.same_as_equiv :
    (∀ a : IterDomain, a.same_as a = true)
    ∧ (∀ a b : IterDomain, a.same_as b = b.same_as a)
    ∧ (∀ a b : IterDomain, ∀ v : Nat,
        a.is_reduction_domain = b.is_reduction_domain →
        a.parallel_method = b.parallel_method →
        a.size.value = some v → b.size.value = some v →
        a.same_as b = true) := by
  refine ⟨IterDomain.same_as_rfl, IterDomain.same_as_symm, ?_⟩
  intro a b v hr hp hav hbv
  unfold IterDomain.same_as IterDomain.isReduction IntNode.same_as
  rw [hav, hbv]
  simp [hr, hp]

theorem IterDomain.same_as_equiv_witness :
    iterA.is_reduction_domain = iterB.is_reduction_domain
    ∧ iterA.parallel_method = iterB.parallel_method
    ∧ iterA.size.value = some 5 ∧ iterB.size.value = some 5
    ∧ iterA.same_as iterB = true := by
  refine ⟨rfl, rfl, rfl, by decide, ?_⟩
  exact IterDomain.same_as_equiv.2.2 iterA iterB 5 rfl rfl rfl (by decide)

/-- C1: `computeAt` with an axis beyond the target's domain size is
rejected, and the rejected call leaves the view's compute-at state
exactly as it was before the call (in particular `none` / `-1` when
previously unset): the post-state is the unchanged view. -/
theorem TensorView.computeAt_out_of_range (v t : TensorView)
    (dt : TensorDomain) (axis : Int) (hd : t.domain = some dt)
    (ha : (dt.size : Int) < axis) :
    (v.computeAt t axis).isOk = false
    ∧ v.computeAtPost t axis = v
    ∧ (v.computeAtPost t axis).getComputeAtView = v.getComputeAtView
    ∧ (v.computeAtPost t axis).getComputeAtAxis = v.getComputeAtAxis := by
  have himpl : (ComputeAt_impl v t axis).isOk = false := by
    unfold ComputeAt_impl
    cases hv : v.domain with
    | none => simp only [hd]; rfl
    | some cd =>
      simp only [hv, hd]
      have hcond : ¬ ((0:Int) ≤ axis ∧ axis ≤ (dt.size : Int)) := by omega
      rw [if_neg hcond]
      rfl
  have hca : (v.computeAt t axis).isOk = false := by
    unfold TensorView.computeAt
    cases hi : ComputeAt_impl v t axis with
    | error e => rfl
    | ok u => rw [hi] at himpl; simp [Except.isOk, Except.toBool] at himpl
  have hpost : v.computeAtPost t axis = v := by
    unfold TensorView.computeAtPost
    cases hc : v.computeAt t axis with
    | error e => rfl
    | ok u => rw [hc] at hca; simp [Except.isOk, Except.toBool] at hca
  exact ⟨hca, hpost, by rw [hpost], by rw [hpost]⟩

theorem TensorView.computeAt_out_of_range_witness :
    targetView.domain = some targetDom ∧ ((targetDom.size : Int) < 5)
    ∧ (schedView.computeAt targetView 5).isOk = false
    ∧ schedView.computeAtPost targetView 5 = schedView
    ∧ (schedView.computeAtPost targetView 5).getComputeAtView = none
    ∧ (schedView.computeAtPost targetView 5).getComputeAtAxis = -1 := by
  have h := TensorView.computeAt_out_of_range schedView targetView targetDom 5
    (by rfl) (by decide)
  refine ⟨by rfl, by decide, h.1, h.2.1, ?_, ?_⟩
  · rw [h.2.2.1]; rfl
  · rw [h.2.2.2]; rfl

/-- C7: `TensorView::same_as` holds precisely when the bound Tensors are
structurally equal (`Tensor.same_as`) and the current domains are
structurally equal (`TensorDomain.same_as`). -/
theorem TensorView.same_as_iff (a b : TensorView) (da db : TensorDomain)
    (hda : a.domain = some da) (hdb : b.domain = some db) :
    a.same_as b = some true ↔
      (a.tensor.same_as b.tensor = true ∧ da.same_as db = true) := by
  unfold TensorView.same_as
  simp only [hda, hdb]
  by_cases ht : a.tensor.same_as b.tensor = true
  · simp [ht]
  · simp [ht]

theorem TensorView.same_as_iff_witness :
    viewA.domain = some targetDom ∧ viewB.domain = some targetDom
    ∧ viewA.same_as viewB = some true
    ∧ viewA.tensor.same_as viewB.tensor = true
    ∧ targetDom.same_as targetDom = true := by
  have h := TensorView.same_as_iff viewA viewB targetDom targetDom
    (by rfl) (by rfl)
  refine ⟨by rfl, by rfl, ?_, by decide, by decide⟩
  exact h.mpr ⟨by decide, by decide⟩

/-- C10: both constructors initialize the compute-at state to unset
(`nullptr` target and axis `-1`), and the one-argument constructor binds
the view's current domain to the wrapped Tensor's native domain. -/
theorem TensorView.constructors_init (t : Tensor) (d : Option TensorDomain) :
    (TensorView.ofTensorAndDomain t d).getComputeAtView = none
    ∧ (TensorView.ofTensorAndDomain t d).getComputeAtAxis = -1
    ∧ (TensorView.ofTensor t).getComputeAtView = none
    ∧ (TensorView.ofTensor t).getComputeAtAxis = -1
    ∧ (TensorView.ofTensor t).domain = t.domain :=
  ⟨rfl, rfl, rfl, rfl, rfl⟩

/-- Unfolding of the rank accessor. -/
theorem TensorDomain.size_eq (d : TensorDomain) : d.size = d.domain.length :=
  rfl

/-- `axis` at a non-negative in-bounds index is plain list indexing. -/
theorem TensorDomain.axis_nat (d : TensorDomain) (i : Nat)
    (h : i < d.domain.length) :
    d.axis i = d.domain[i]? := by
  unfold TensorDomain.axis
  have h0 : ¬ ((i : Int) < 0) := by omega
  have h1 : (0 : Int) ≤ (i : Int) ∧ (i : Int) < (d.size : Int) := by
    rw [TensorDomain.size_eq]
    omega
  simp only [if_neg h0]
  rw [dif_pos h1, List.getElem?_eq_getElem h]
  rfl

/-- `axis` at a natural index at or beyond the rank fails. -/
theorem TensorDomain.axis_nat_none (d : TensorDomain) (i : Nat)
    (h : d.domain.length ≤ i) : d.axis i = none := by
  unfold TensorDomain.axis
  have h0 : ¬ ((i : Int) < 0) := by omega
  have h1 : ¬ ((0 : Int) ≤ (i : Int) ∧ (i : Int) < (d.size : Int)) := by
    rw [TensorDomain.size_eq]
    omega
  simp only [if_neg h0]
  rw [dif_neg h1]

/-- `axis` at a natural index succeeds exactly on in-bounds indexing. -/
theorem TensorDomain.axis_eq_some_iff (d : TensorDomain) (i : Nat)
    (x : IterDomain) :
    d.axis i = some x ↔ d.domain[i]? = some x := by
  constructor
  · intro h
    have hb : i < d.domain.length := by
      by_contra hc
      rw [TensorDomain.axis_nat_none d i (by omega)] at h
      exact Option.noConfusion h
    rw [TensorDomain.axis_nat d i hb] at h
    exact h
  · intro h
    have hb : i < d.domain.length := by
      by_contra hc
      rw [List.getElem?_eq_none (by omega)] at h
      exact Option.noConfusion h
    rw [TensorDomain.axis_nat d i hb]
    exact h

/-- C3: merging two adjacent axes that disagree on the reduction flag or
on the parallelization strategy is a legality error (`none`); in
particular a reduction axis never silently merges with a non-reduction
axis. -/
theorem merge_illegal (d : TensorDomain) (a : Nat) (x y : IterDomain)
    (hx : d.axis a = some x) (hy : d.axis ((a + 1 : Nat)) = some y)
    (hne : x.is_reduction_domain ≠ y.is_reduction_domain
      ∨ x.parallel_method ≠ y.parallel_method) :
    merge d a = none := by
  rw [TensorDomain.axis_eq_some_iff] at hx hy
  unfold merge
  simp only [hx, hy]
  have hcond : ¬ (x.is_reduction_domain = y.is_reduction_domain
      ∧ x.parallel_method = y.parallel_method) := by
    rcases hne with h | h
    · exact fun hc => h hc.1
    · exact fun hc => h hc.2
  rw [if_neg hcond]

theorem merge_illegal_witness :
    mixedDomain.axis 0 = some ⟨IntNode.lit 8, ParallelType.Serial, true⟩
    ∧ mixedDomain.axis 1 = some ⟨IntNode.lit 4, ParallelType.Serial, false⟩
    ∧ (true ≠ false ∨ ParallelType.Serial ≠ ParallelType.Serial)
    ∧ merge mixedDomain 0 = none := by
  refine ⟨by decide, by decide, Or.inl (by decide), ?_⟩
  exact merge_illegal mixedDomain 0
    ⟨IntNode.lit 8, ParallelType.Serial, true⟩
    ⟨IntNode.lit 4, ParallelType.Serial, false⟩
    (by decide) (by decide) (Or.inl (by decide))

/-- C6: `Reorder::same_as` is decided only by the `in` and `out`
domains: any two Reorder nodes with `same_as` inputs and `same_as`
outputs compare equal, whatever their `pos2axis` vectors. -/
theorem Reorder.same_as_ignores_pos2axis (a b : Reorder)
    (hin : a.in'.same_as b.in' = true)
    (hout : a.out.same_as b.out = true) :
    a.same_as b = true := by
  unfold Reorder.same_as
  rw [hin, hout]
  rfl

theorem Reorder.same_as_ignores_pos2axis_witness :
    reorderNodeA.in'.same_as reorderNodeB.in' = true
    ∧ reorderNodeA.out.same_as reorderNodeB.out = true
    ∧ reorderNodeA.pos2axis ≠ reorderNodeB.pos2axis
    ∧ reorderNodeA.same_as reorderNodeB = true := by
  refine ⟨by decide, by decide, by decide, ?_⟩
  exact Reorder.same_as_ignores_pos2axis reorderNodeA reorderNodeB
    (by decide) (by decide)

/-- C9: reordering with the identity permutation yields a TensorDomain
that is `same_as` the input. -/
theorem reorder_identity (d : TensorDomain) :
    (reorder d (List.range d.size)).map (fun d2 => d2.same_as d)
      = some true := by
  have hall : (List.range d.domain.length).all
      (fun i => (List.range d.size).contains i) = true := by
    rw [List.all_eq_true]
    intro i hi
    rw [List.mem_range] at hi
    exact List.elem_iff.mpr (List.mem_range.mpr (by
      rw [TensorDomain.size_eq]
      exact hi))
  have hlen : (List.range d.size).length = d.domain.length := by
    rw [List.length_range, TensorDomain.size_eq]
  unfold reorder
  rw [if_pos ⟨hlen, hall⟩]
  have hmap : (List.range d.size).map
      (fun i => d.domain.getD i IterDomain.dflt) = d.domain := by
    apply List.ext_getElem
    · rw [List.length_map, hlen]
    · intro i h1 h2
      rw [List.getElem_map, List.getElem_range,
        List.getD_eq_getElem?_getD, List.getElem?_eq_getElem h2]
      rfl
  rw [hmap]
  rw [Option.map_some']
  rw [show TensorDomain.mk d.domain = d from rfl]
  rw [TensorDomain.same_as_refl]

theorem extentValueAt_eq (d : TensorDomain) (i : Int) (x : IterDomain)
    (h : d.axis i = some x) : extentValueAt d i = x.size.value := by
  unfold extentValueAt
  rw [h]

/-- List-level characterization of the output of `split`. -/
theorem split_out_getElem (d : TensorDomain) (a f : Nat) (old : IterDomain)
    (ha : d.domain[a]? = some old) (hf : 0 < f) :
    ∃ L2 : List IterDomain,
      split d a f = some ⟨L2⟩
      ∧ L2.length = d.domain.length + 1
      ∧ L2[a]? = some (splitOuter old f)
      ∧ L2[a + 1]? = some (splitInner old f)
      ∧ (∀ i, i < a → L2[i]? = d.domain[i]?)
      ∧ (∀ i, a < i → i < d.domain.length → L2[i + 1]? = d.domain[i]?) := by
  have hb : a < d.domain.length := by
    by_contra hc
    rw [List.getElem?_eq_none (by omega)] at ha
    exact Option.noConfusion ha
  have hmlen : (d.domain.take a ++ [splitOuter old f, splitInner old f]).length
      = a + 2 := by
    simp only [List.length_append, List.length_take, List.length_cons,
      List.length_nil]
    omega
  refine ⟨d.domain.take a ++ [splitOuter old f, splitInner old f]
    ++ d.domain.drop (a + 1), ?_, ?_, ?_, ?_, ?_, ?_⟩
  · unfold split
    simp only [ha]
    rw [if_pos hf]
    rfl
  · simp only [List.length_append, List.length_take, List.length_cons,
      List.length_nil, List.length_drop]
    omega
  · rw [List.getElem?_append_left (show a < (d.domain.take a
      ++ [splitOuter old f, splitInner old f]).length by omega)]
    rw [List.getElem?_append_right (show (d.domain.take a).length ≤ a by
      rw [List.length_take]; omega)]
    rw [show a - (d.domain.take a).length = 0 from by
      rw [List.length_take]; omega]
    rfl
  · rw [List.getElem?_append_left (show a + 1 < (d.domain.take a
      ++ [splitOuter old f, splitInner old f]).length by omega)]
    rw [List.getElem?_append_right (show (d.domain.take a).length ≤ a + 1 by
      rw [List.length_take]; omega)]
    rw [show a + 1 - (d.domain.take a).length = 1 from by
      rw [List.length_take]; omega]
    rfl
  · intro i hia
    rw [List.getElem?_append_left (show i < (d.domain.take a
      ++ [splitOuter old f, splitInner old f]).length by omega)]
    rw [List.getElem?_append_left (show i < (d.domain.take a).length by
      rw [List.length_take]; omega)]
    exact List.getElem?_take_of_lt hia
  · intro i hai hile
    rw [List.getElem?_append_right (show (d.domain.take a
      ++ [splitOuter old f, splitInner old f]).length ≤ i + 1 by omega)]
    rw [hmlen, List.getElem?_drop]
    rw [show a + 1 + (i + 1 - (a + 2)) = i from by omega]

/-- C2: splitting a valid axis `a` by a positive factor `f` yields a
domain of rank `rank + 1` whose axis `a` is an outer axis of size
`ceil(extent/factor)` with the original annotations, whose axis `a + 1`
is an inner axis of size `factor`, and whose remaining axes are carried
over (those above `a` shifted up by one); for a concrete extent `s` the
outer size node evaluates to `⌈s/f⌉ = (s + f - 1) / f`. -/
theorem split_spec (d : TensorDomain) (a f : Nat) (old : IterDomain)
    (ha : d.axis a = some old) (hf : 0 < f) :
    ∃ d2, split d a f = some d2
    ∧ d2.size = d.size + 1
    ∧ d2.axis a = some (splitOuter old f)
    ∧ d2.axis ((a + 1 : Nat)) = some (splitInner old f)
    ∧ (∀ s, old.size.value = some s →
        (splitOuter old f).size.value = some ((s + f - 1) / f))
    ∧ (∀ i : Nat, i < a → d2.axis i = d.axis i)
    ∧ (∀ i : Nat, a < i → i < d.size → d2.axis ((i + 1 : Nat)) = d.axis i) := by
  rw [TensorDomain.axis_eq_some_iff] at ha
  have hb : a < d.domain.length := by
    by_contra hc
    rw [List.getElem?_eq_none (by omega)] at ha
    exact Option.noConfusion ha
  obtain ⟨L2, hsp, hlen, hga, hga1, hbelow, habove⟩ :=
    split_out_getElem d a f old ha hf
  refine ⟨⟨L2⟩, hsp, hlen, ?_, ?_, ?_, ?_, ?_⟩
  · rw [TensorDomain.axis_nat _ a (show a < L2.length by omega)]
    exact hga
  · rw [TensorDomain.axis_nat _ (a + 1) (show a + 1 < L2.length by omega)]
    exact hga1
  · intro s hs
    simp only [splitOuter, IntNode.value, hs]
    rw [if_neg (show ¬ f = 0 by omega)]
  · intro i hia
    rw [TensorDomain.axis_nat _ i (show i < L2.length by omega),
      TensorDomain.axis_nat d i (by omega)]
    exact hbelow i hia
  · intro i hai hin
    rw [TensorDomain.size_eq] at hin
    rw [TensorDomain.axis_nat _ (i + 1) (show i + 1 < L2.length by omega),
      TensorDomain.axis_nat d i (by omega)]
    exact habove i hai hin

theorem split_spec_witness :
    exampleDomain7.axis 0
        = some ⟨IntNode.lit 7, ParallelType.Serial, false⟩
    ∧ (0 : Nat) < 4
    ∧ (∃ d2, split exampleDomain7 0 4 = some d2
      ∧ d2.size = exampleDomain7.size + 1
      ∧ d2.axis 0
          = some (splitOuter ⟨IntNode.lit 7, ParallelType.Serial, false⟩ 4)
      ∧ d2.axis ((0 + 1 : Nat))
          = some (splitInner ⟨IntNode.lit 7, ParallelType.Serial, false⟩ 4)
      ∧ (∀ s, (IntNode.lit 7).value = some s →
          (splitOuter ⟨IntNode.lit 7, ParallelType.Serial, false⟩ 4).size.value
            = some ((s + 4 - 1) / 4))
      ∧ (∀ i : Nat, i < 0 → d2.axis i = exampleDomain7.axis i)
      ∧ (∀ i : Nat, 0 < i → i < exampleDomain7.size →
          d2.axis ((i + 1 : Nat)) = exampleDomain7.axis i)) :=
  ⟨by decide, by decide,
    split_spec exampleDomain7 0 4 ⟨IntNode.lit 7, ParallelType.Serial, false⟩
      (by decide) (by decide)⟩

/-- C5 as stated fails on the code: splitting the concrete extent-7 axis
of `exampleDomain7` by factor 4 and merging the two resulting axes gives
a merged extent of `ceil(7/4) * 4 = 8`, not the original extent 7 (the
rank does return to 1). -/
theorem split_merge_extent_counterexample :
    ((split exampleDomain7 0 4).bind fun x => merge x 0).map
        (fun dm => extentValueAt dm 0) = some (some 8)
    ∧ ((split exampleDomain7 0 4).bind fun x => merge x 0).map
        (fun dm => dm.size) = some exampleDomain7.size
    ∧ extentValueAt exampleDomain7 0 = some 7
    ∧ some (8 : Nat) ≠ some 7 := by
  decide

/-- C5 (amended): split by `f` then merge of the two new axes always
restores the original rank, and for a concrete original extent `s` the
merged extent is `ceil(s/f) * f = ((s + f - 1) / f) * f`, which equals
the original extent `s` exactly when `f` divides `s`. -/
theorem split_merge_roundtrip (d : TensorDomain) (a f : Nat)
    (old : IterDomain) (ha : d.axis a = some old) (hf : 0 < f) :
    ∃ d2 dm, split d a f = some d2 ∧ merge d2 a = some dm
    ∧ dm.size = d.size
    ∧ (∀ s, old.size.value = some s →
        extentValueAt dm a = some (((s + f - 1) / f) * f))
    ∧ (∀ s, old.size.value = some s → f ∣ s →
        extentValueAt dm a = some s) := by
  rw [TensorDomain.axis_eq_some_iff] at ha
  have hb : a < d.domain.length := by
    by_contra hc
    rw [List.getElem?_eq_none (by omega)] at ha
    exact Option.noConfusion ha
  obtain ⟨L2, hsp, hlen, hga, hga1, hbelow, habove⟩ :=
    split_out_getElem d a f old ha hf
  have hM : ∃ M : List IterDomain, merge ⟨L2⟩ a = some ⟨M⟩
      ∧ M.length = d.domain.length
      ∧ M[a]? = some ⟨IntNode.mul (splitOuter old f).size
          (splitInner old f).size, old.parallel_method,
          old.is_reduction_domain⟩ := by
    have hmtake : (L2.take a).length = a := by
      rw [List.length_take]; omega
    refine ⟨L2.take a ++ [⟨IntNode.mul (splitOuter old f).size
      (splitInner old f).size, old.parallel_method,
      old.is_reduction_domain⟩] ++ L2.drop (a + 2), ?_, ?_, ?_⟩
    · unfold merge
      simp only [hga, hga1]
      rw [if_pos ⟨rfl, rfl⟩]
      rfl
    · simp only [List.length_append, List.length_take, List.length_cons,
        List.length_nil, List.length_drop]
      omega
    · rw [List.getElem?_append_left (show a < (L2.take a
        ++ [(⟨IntNode.mul (splitOuter old f).size (splitInner old f).size,
          old.parallel_method, old.is_reduction_domain⟩ : IterDomain)]).length
        by simp only [List.length_append, List.length_take, List.length_cons,
          List.length_nil]; omega)]
      rw [List.getElem?_append_right (show (L2.take a).length ≤ a by omega)]
      rw [show a - (L2.take a).length = 0 from by omega]
      rfl
  obtain ⟨M, hmg, hMlen, hMa⟩ := hM
  have haxM : (⟨M⟩ : TensorDomain).axis a
      = some ⟨IntNode.mul (splitOuter old f).size (splitInner old f).size,
          old.parallel_method, old.is_reduction_domain⟩ := by
    rw [TensorDomain.axis_nat _ a (show a < M.length by omega)]
    exact hMa
  have hext : ∀ s, old.size.value = some s →
      extentValueAt (⟨M⟩ : TensorDomain) a = some (((s + f - 1) / f) * f) := by
    intro s hs
    rw [extentValueAt_eq _ _ _ haxM]
    simp only [splitOuter, splitInner, IntNode.value, hs]
    rw [if_neg (show ¬ f = 0 by omega)]
  refine ⟨⟨L2⟩, ⟨M⟩, hsp, hmg, hMlen, hext, ?_⟩
  intro s hs hdvd
  rw [hext s hs]
  obtain ⟨k, rfl⟩ := hdvd
  have hceil : (f * k + f - 1) / f = k := by
    rw [show f * k + f - 1 = f * k + (f - 1) from by omega,
      Nat.mul_add_div (by omega), Nat.div_eq_of_lt (by omega)]
    rfl
  rw [hceil, Nat.mul_comm]

theorem split_merge_roundtrip_witness :
    exampleDomain8.axis 0
        = some ⟨IntNode.lit 8, ParallelType.Serial, false⟩
    ∧ (0 : Nat) < 4
    ∧ (∃ d2 dm, split exampleDomain8 0 4 = some d2 ∧ merge d2 0 = some dm
      ∧ dm.size = exampleDomain8.size
      ∧ (∀ s, (IntNode.lit 8).value = some s →
          extentValueAt dm 0 = some (((s + 4 - 1) / 4) * 4))
      ∧ (∀ s, (IntNode.lit 8).value = some s → 4 ∣ s →
          extentValueAt dm 0 = some s)) :=
  ⟨by decide, by decide,
    split_merge_roundtrip exampleDomain8 0 4
      ⟨IntNode.lit 8, ParallelType.Serial, false⟩ (by decide) (by decide)⟩
